import Mathlib

/-!
A Lean 4 model of the request/response engine of a small HTTP/1.1 server
written in Rust (files src/lib.rs, src/structs.rs of the repository).
Byte buffers are `List Nat` (each element < 256), decoded text is modelled
as a list of Unicode code points (`List Nat`), and Rust `String` values that
surface in the data model are Lean `String`s.  External collaborators
(the TCP stream, the filesystem, the flate2 gzip encoder) are passed in as
explicit inputs or function parameters.
-/

namespace HttpSrv

/-! ### UTF-8 encoding and decoding

Models Rust's `str`/`String` UTF-8 machinery (`as_bytes`,
`String::from_utf8_lossy`, the validity check inside `fs::read_to_string`).
The decoder follows the WHATWG table used by Rust's std: per-lead-byte
ranges for the second byte, continuation bytes in `0x80..=0xBF`, and on
failure the maximal valid subpart of a sequence is consumed and replaced
by one U+FFFD (the `from_utf8_lossy` substitution rule).
-/

/-- UTF-8 encoding of one Unicode scalar value (Rust `char::encode_utf8`). -/
def utf8EncodeCp (n : Nat) : List Nat :=
  if n < 0x80 then [n]
  else if n < 0x800 then [0xC0 + n / 0x40, 0x80 + n % 0x40]
  else if n < 0x10000 then
    [0xE0 + n / 0x1000, 0x80 + n / 0x40 % 0x40, 0x80 + n % 0x40]
  else
    [0xF0 + n / 0x40000, 0x80 + n / 0x1000 % 0x40, 0x80 + n / 0x40 % 0x40,
      0x80 + n % 0x40]

/-- UTF-8 encoding of a sequence of code points (Rust `str::as_bytes`). -/
def utf8Encode (cps : List Nat) : List Nat :=
  (cps.map utf8EncodeCp).flatten

/-- The UTF-8 bytes of a Lean string (models Rust `str::as_bytes`). -/
def strBytes (s : String) : List Nat :=
  utf8Encode (s.data.map Char.toNat)

/-- Is `b` a UTF-8 continuation byte? -/
def isCont (b : Nat) : Bool :=
  decide (0x80 ≤ b ∧ b ≤ 0xBF)

/-- Valid range for the second byte of a three-byte sequence led by `b`
(WHATWG table: `E0` needs `A0..BF`, `ED` needs `80..9F`). -/
def okSecond3 (b b1 : Nat) : Bool :=
  if b = 0xE0 then decide (0xA0 ≤ b1 ∧ b1 ≤ 0xBF)
  else if b = 0xED then decide (0x80 ≤ b1 ∧ b1 ≤ 0x9F)
  else isCont b1

/-- Valid range for the second byte of a four-byte sequence led by `b`
(WHATWG table: `F0` needs `90..BF`, `F4` needs `80..8F`). -/
def okSecond4 (b b1 : Nat) : Bool :=
  if b = 0xF0 then decide (0x90 ≤ b1 ∧ b1 ≤ 0xBF)
  else if b = 0xF4 then decide (0x80 ≤ b1 ∧ b1 ≤ 0x8F)
  else isCont b1

/-- Result of decoding one UTF-8 sequence at the head of a byte list:
either a code point together with the number of bytes consumed, or an
invalid sequence of the given length (the maximal valid subpart). -/
inductive StepRes : Type
  | ok (cp : Nat) (len : Nat)
  | bad (len : Nat)
deriving DecidableEq, Repr

/-- Decode one UTF-8 sequence at the head of the byte list. -/
def decodeStep : List Nat → StepRes
  | [] => .bad 1
  | b :: tail =>
    if b < 0x80 then .ok b 1
    else if b < 0xC2 then .bad 1
    else if b < 0xE0 then
      match tail with
      | b1 :: _ =>
        if isCont b1 then .ok ((b - 0xC0) * 0x40 + (b1 - 0x80)) 2 else .bad 1
      | [] => .bad 1
    else if b < 0xF0 then
      match tail with
      | b1 :: tail1 =>
        if okSecond3 b b1 then
          match tail1 with
          | b2 :: _ =>
            if isCont b2 then
              .ok (((b - 0xE0) * 0x40 + (b1 - 0x80)) * 0x40 + (b2 - 0x80)) 3
            else .bad 2
          | [] => .bad 2
        else .bad 1
      | [] => .bad 1
    else if b < 0xF5 then
      match tail with
      | b1 :: tail1 =>
        if okSecond4 b b1 then
          match tail1 with
          | b2 :: tail2 =>
            if isCont b2 then
              match tail2 with
              | b3 :: _ =>
                if isCont b3 then
                  .ok ((((b - 0xF0) * 0x40 + (b1 - 0x80)) * 0x40
                      + (b2 - 0x80)) * 0x40 + (b3 - 0x80)) 4
                else .bad 3
              | [] => .bad 3
            else .bad 2
          | [] => .bad 2
        else .bad 1
      | [] => .bad 1
    else .bad 1

/-- Strict UTF-8 decoding with explicit fuel (the fuel is always
instantiated with the length of the byte list, which suffices because
every step consumes at least one byte). -/
def utf8StrictAux : Nat → List Nat → Option (List Nat)
  | _, [] => some []
  | 0, _ :: _ => none
  | fuel + 1, b :: tail =>
    match decodeStep (b :: tail) with
    | .ok cp k => (utf8StrictAux fuel ((b :: tail).drop k)).map (fun cps => cp :: cps)
    | .bad _ => none

/-- Strict UTF-8 decoding to code points; `none` on any invalid sequence.
Models the validity check of Rust `str::from_utf8` (and hence of
`fs::read_to_string`). -/
def utf8Strict (bs : List Nat) : Option (List Nat) :=
  utf8StrictAux bs.length bs

/-- Lossy UTF-8 decoding with fuel: invalid sequences become U+FFFD. -/
def utf8LossyAux : Nat → List Nat → List Nat
  | _, [] => []
  | 0, _ :: _ => []
  | fuel + 1, b :: tail =>
    match decodeStep (b :: tail) with
    | .ok cp k => cp :: utf8LossyAux fuel ((b :: tail).drop k)
    | .bad k => 0xFFFD :: utf8LossyAux fuel ((b :: tail).drop (max k 1))

/-- Lossy UTF-8 decoding to code points (Rust `String::from_utf8_lossy`). -/
def utf8Lossy (bs : List Nat) : List Nat :=
  utf8LossyAux bs.length bs

/-! ### Rust string primitives

Models of the `str` methods the server uses: `split_inclusive('\n')`-based
`lines()`, `split_once`, `contains`, `split_whitespace`, `to_lowercase`,
`trim_end` and `parse::<usize>`.  Text that came out of the lossy decoder
is kept as code-point lists; methods used on `String` values of the data
model are wrapped for Lean `String`.
-/

/-- `str::split_inclusive('\n')` over code points: each part keeps its
terminating newline; an empty string yields no parts. -/
def splitInclusiveNl : List Nat → List (List Nat)
  | [] => []
  | c :: rest =>
    if c = 10 then [c] :: splitInclusiveNl rest
    else
      match splitInclusiveNl rest with
      | [] => [[c]]
      | p :: ps => (c :: p) :: ps

/-- The per-line trim of Rust `str::lines`: strip one trailing `'\n'`, and
only if one was stripped also strip one trailing `'\r'`. -/
def dropLineEnd (l : List Nat) : List Nat :=
  if l.getLast? = some 10 then
    if l.dropLast.getLast? = some 13 then l.dropLast.dropLast else l.dropLast
  else l

/-- Rust `str::lines()` over code points. -/
def rustLines (cps : List Nat) : List (List Nat) :=
  (splitInclusiveNl cps).map dropLineEnd

/-- Rust `str::split_once` over code-point/char lists: split at the first
occurrence of `sep`, or `none` when `sep` does not occur. -/
def splitOnceL (sep : List Char) : List Char → Option (List Char × List Char)
  | [] => if sep.isPrefixOf ([] : List Char) then some ([], []) else none
  | c :: rest =>
    if sep.isPrefixOf (c :: rest) then some ([], (c :: rest).drop sep.length)
    else (splitOnceL sep rest).map (fun p => (c :: p.1, p.2))

/-- Rust `str::split_once` for Lean strings. -/
def splitOnceStr (sep s : String) : Option (String × String) :=
  (splitOnceL sep.data s.data).map (fun p => (String.mk p.1, String.mk p.2))

/-- Substring containment over char lists (Rust `str::contains`). -/
def containsSubL (needle : List Char) : List Char → Bool
  | [] => needle.isPrefixOf ([] : List Char)
  | c :: rest => needle.isPrefixOf (c :: rest) || containsSubL needle rest

/-- Rust `str::contains` for Lean strings. -/
def strContains (s pat : String) : Bool :=
  containsSubL pat.data s.data

/-- Rust `char::is_whitespace`: the Unicode `White_Space` property. -/
def isRustWs (c : Char) : Bool :=
  let n := c.toNat
  decide ((9 ≤ n ∧ n ≤ 13) ∨ n = 0x20 ∨ n = 0x85 ∨ n = 0xA0 ∨ n = 0x1680 ∨
    (0x2000 ≤ n ∧ n ≤ 0x200A) ∨ n = 0x2028 ∨ n = 0x2029 ∨ n = 0x202F ∨
    n = 0x205F ∨ n = 0x3000)

/-- Helper for `split_whitespace`: `cur` is the current (reversed) token. -/
def splitWsAux (cur : List Char) : List Char → List String
  | [] => if cur.isEmpty then [] else [String.mk cur.reverse]
  | c :: rest =>
    if isRustWs c then
      if cur.isEmpty then splitWsAux [] rest
      else String.mk cur.reverse :: splitWsAux [] rest
    else splitWsAux (c :: cur) rest

/-- Rust `str::split_whitespace`: maximal runs of non-whitespace. -/
def rustSplitWs (s : String) : List String :=
  splitWsAux [] s.data

/-- Rust `str::to_lowercase`.  Modelled with Lean's per-character simple
lowercase mapping; it agrees with Rust on ASCII header names (Rust
additionally applies full Unicode lowercasing to non-ASCII characters). -/
def toLowerStr (s : String) : String :=
  String.mk (s.data.map Char.toLower)

/-- Rust `str::trim_end`: drop trailing whitespace characters. -/
def rustTrimEnd (s : String) : String :=
  String.mk ((s.data.reverse.dropWhile isRustWs).reverse)

/-- Rust `str::parse::<usize>`: an optional leading `'+'`, then one or
more ASCII digits; values that overflow a 64-bit `usize` are rejected. -/
def parseUsize (s : String) : Option Nat :=
  let cs := s.data
  let ds := if cs.head? = some '+' then cs.tail else cs
  if !ds.isEmpty && ds.all Char.isDigit then
    let v := ds.foldl (fun acc c => acc * 10 + (c.toNat - 48)) 0
    if v < 2 ^ 64 then some v else none
  else none

/-! ### Data model (src/structs.rs) -/

/-- HTTP method (structs.rs `enum Method`). -/
inductive Method : Type
  | get
  | post
deriving DecidableEq, Repr

/-- `Method::from_str` (structs.rs): only `"GET"` and `"POST"` parse. -/
def Method.from_str (s : String) : Except String Method :=
  if s = "GET" then .ok .get
  else if s = "POST" then .ok .post
  else .error ("invalid method: " ++ s)

/-- The header map (structs.rs `struct Headers(HashMap<String, String>)`).
The `HashMap` is modelled as an association list with at most one entry per
key; iteration order of the Rust map is arbitrary, and nothing proved below
depends on the order of `entries`. -/
structure Headers : Type where
  entries : List (String × String)
deriving DecidableEq, Repr

/-- `HashMap::insert`: replace the value of an existing key (the map holds
at most one entry per key), otherwise add a new entry. -/
def insertEntry : List (String × String) → String → String →
    List (String × String)
  | [], k, v => [(k, v)]
  | p :: rest, k, v =>
    if p.1 = k then (k, v) :: rest else p :: insertEntry rest k v

/-- `Headers::set` (structs.rs lines 88-90): inserts under the key exactly
as given — no case folding happens here. -/
def Headers.set (h : Headers) (k v : String) : Headers :=
  ⟨insertEntry h.entries k v⟩

/-- `HashMap::get`: the value of the (unique) entry with the given key. -/
def lookupEntry (k : String) : List (String × String) → Option String
  | [] => none
  | p :: rest => if p.1 = k then some p.2 else lookupEntry k rest

/-- `Headers::get` (structs.rs lines 92-94): exact `HashMap` lookup. -/
def Headers.get (h : Headers) (k : String) : Option String :=
  lookupEntry k h.entries

/-- Loop body of `Headers::from` (structs.rs lines 67-86): stop at the
first empty line; a line without the separator `": "` is an error ending
the whole parse; otherwise insert under the lowercased name. -/
def headersFromAux (acc : List (String × String)) :
    List String → Except String (List (String × String))
  | [] => .ok acc
  | line :: rest =>
    if line = "" then .ok acc
    else
      match splitOnceStr ": " line with
      | none => .error ("invalid header line: " ++ line)
      | some (k, v) => headersFromAux (insertEntry acc (toLowerStr k) v) rest

/-- `Headers::from` (structs.rs lines 67-86). -/
def Headers.from_lines (lines : List String) : Except String Headers :=
  (headersFromAux [] lines).map (fun l => ⟨l⟩)

/-- `ContentType` (structs.rs) with its `Display` strings. -/
inductive ContentType : Type
  | plainText
  | octetStream
deriving DecidableEq, Repr

def ContentType.toWire : ContentType → String
  | .plainText => "text/plain"
  | .octetStream => "application/octet-stream"

/-- `Headers::set_content_type`. -/
def Headers.set_content_type (h : Headers) (t : ContentType) : Headers :=
  h.set "content-type" t.toWire

/-- `Headers::set_content_length`. -/
def Headers.set_content_length (h : Headers) (n : Nat) : Headers :=
  h.set "content-length" (toString n)

/-- `Headers::get_content_length`: the raw value parsed as `usize`,
`none` when absent or unparsable. -/
def Headers.get_content_length (h : Headers) : Option Nat :=
  (h.get "content-length").bind parseUsize

/-- `Headers::set_content_encoding` (the only encoding is gzip). -/
def Headers.set_content_encoding (h : Headers) : Headers :=
  h.set "content-encoding" "gzip"

/-- `Headers::get_accept_encoding`. -/
def Headers.get_accept_encoding (h : Headers) : Option String :=
  h.get "accept-encoding"

/-- `Headers::get_user_agent`. -/
def Headers.get_user_agent (h : Headers) : Option String :=
  h.get "user-agent"

/-- `Body::from_str` (structs.rs): the UTF-8 bytes of the string. -/
def Body.from_str (s : String) : List Nat :=
  strBytes s

/-- `Body::from_lines` (structs.rs lines 163-168): join the lines with
`"\r\n"` and take the UTF-8 bytes.  The lines are code-point lists, so the
joined bytes are the encoding of the `"\r\n"`-interspersed code points. -/
def Body.from_lines (lines : List (List Nat)) : List Nat :=
  utf8Encode (List.intercalate [13, 10] lines)

/-- `Body`'s `Display` impl (structs.rs lines 175-179): the body bytes
decoded with `String::from_utf8_lossy`; `to_string` on a `Body` yields this
text, whose UTF-8 bytes are `utf8Encode (utf8Lossy bytes)`. -/
def Body.to_string_cps (bytes : List Nat) : List Nat :=
  utf8Lossy bytes

/-- A parsed request (structs.rs `struct Request`); the body is raw bytes. -/
structure Request : Type where
  method : Method
  path : String
  version : String
  headers : Headers
  body : List Nat
deriving DecidableEq, Repr

/-- `Request::is_gzip_encoding` (structs.rs lines 55-60): the
`accept-encoding` header value contains the substring `"gzip"`. -/
def Request.is_gzip_encoding (r : Request) : Bool :=
  match r.headers.get_accept_encoding with
  | some enc => strContains enc "gzip"
  | none => false

/-- Response status (structs.rs `enum Status`). -/
inductive Status : Type
  | ok
  | notFound
  | created
  | internalServerError
deriving DecidableEq, Repr

/-- `Status`'s `Display` strings. -/
def Status.toWire : Status → String
  | .ok => "200 OK"
  | .notFound => "404 Not Found"
  | .created => "201 Created"
  | .internalServerError => "500 Internal Server Error"

/-- A response under construction (structs.rs `struct Response`). -/
structure Response : Type where
  version : String
  status : Status
  headers : Headers
  body : List Nat
deriving DecidableEq, Repr

/-- `Response::new`: version `"HTTP/1.1"`, status 200, no headers, empty
body. -/
def Response.new : Response :=
  ⟨"HTTP/1.1", .ok, ⟨[]⟩, []⟩

/-- `Response::set_status`. -/
def Response.set_status (r : Response) (s : Status) : Response :=
  { r with status := s }

/-- `Response::set_plain_text_body`. -/
def Response.set_plain_text_body (r : Response) (body : List Nat) : Response :=
  { r with
    headers := (r.headers.set_content_type .plainText).set_content_length
      body.length
    body := body }

/-- `Response::set_file_body`. -/
def Response.set_file_body (r : Response) (body : List Nat) : Response :=
  { r with
    headers := (r.headers.set_content_type .octetStream).set_content_length
      body.length
    body := body }

/-- `Response::apply_compression` (structs.rs lines 240-253).  The flate2
`GzEncoder` at `Compression::default()` is an external library collaborator
and is passed in as the function `compress`; everything else follows the
source: early return when the request does not accept gzip, otherwise set
`content-encoding: gzip`, replace the body by the compressed bytes and set
`content-length` to the compressed byte length. -/
def Response.apply_compression (compress : List Nat → List Nat)
    (request : Request) (r : Response) : Response :=
  if !request.is_gzip_encoding then r
  else
    { r with
      headers := (r.headers.set_content_encoding).set_content_length
        (compress r.body).length
      body := compress r.body }

/-- `Response::to_bytes` (structs.rs lines 255-269): the buffer is extended
with `"{version} "`, `"{status}\r\n"`, each header as `"{key}: {value}\r\n"`,
a blank `"\r\n"`, and finally the raw body bytes. -/
def Response.to_bytes (r : Response) : List Nat :=
  strBytes (r.version ++ " ") ++ strBytes (r.status.toWire ++ "\r\n") ++
    (r.headers.entries.map (fun p => strBytes (p.1 ++ ": " ++ p.2 ++ "\r\n"))).flatten ++
    strBytes "\r\n" ++ r.body

/-! ### Connection handling (src/lib.rs) -/

/-- Outcome of the request-line code (lib.rs lines 24-27).  `indexOob`
models the out-of-bounds `Vec` indexing `parts[0]` / `parts[1]` /
`parts[2]`, which in Rust aborts the task instead of returning an error. -/
inductive ReqLineOut : Type
  | ok (m : Method) (path version : String)
  | err (msg : String)
  | indexOob
deriving DecidableEq, Repr

/-- lib.rs lines 24-27: split the first line on whitespace, then index
`parts[0]` (possibly out of bounds), parse the method (`?` on failure),
then index `parts[1]` and `parts[2]` (possibly out of bounds). -/
def parseRequestLine (firstLine : String) : ReqLineOut :=
  match (rustSplitWs firstLine).get? 0 with
  | none => .indexOob
  | some p0 =>
    match Method.from_str p0 with
    | .error e => .err e
    | .ok m =>
      match (rustSplitWs firstLine).get? 1 with
      | none => .indexOob
      | some p1 =>
        match (rustSplitWs firstLine).get? 2 with
        | none => .indexOob
        | some p2 => .ok m p1 p2

/-- lib.rs lines 40-52: when a `content-length` header parses to `n ≠ 0`,
`read_exact` pulls exactly `n` bytes off the stream (an error if fewer are
available), the bytes are decoded with `from_utf8_lossy`, split with
`lines()`, and the resulting lines are handed to `Body::from_lines`;
otherwise the body is built from no lines. -/
def readBody (headers : Headers) (stream : List Nat) :
    Except String (List Nat) :=
  match headers.get_content_length with
  | some n =>
    if n ≠ 0 then
      if n ≤ stream.length then
        .ok (Body.from_lines (rustLines (utf8Lossy (stream.take n))))
      else .error "failed to fill whole buffer"
    else .ok (Body.from_lines [])
  | none => .ok (Body.from_lines [])

/-- `PathBuf::join` of the serving directory and a path suffix: a suffix
that is itself absolute replaces the directory. -/
def pathJoin (dir suffix : String) : String :=
  if suffix.data.head? = some '/' then suffix else dir ++ "/" ++ suffix

/-- The suffix of the request path after `"/files/"` (lib.rs
`request.path.split_at(7).1`; the prefix is ASCII so the byte index is a
character index). -/
def filesSuffix (path : String) : String :=
  String.mk (path.data.drop 7)

/-- The GET branch of `handle_files` (lib.rs lines 93-106).  The
filesystem is the external collaborator: `fileBytes` is `some` raw file
bytes when the file exists and is readable, `none` on an I/O failure.
`fs::read_to_string` succeeds only when those bytes are valid UTF-8; on
success the decoded text becomes the file body via `Body::from_str`, on
any failure the status is set to 404. -/
def handleFilesGet (fileBytes : Option (List Nat)) (r : Response) : Response :=
  match fileBytes.bind utf8Strict with
  | some cps => r.set_file_body (utf8Encode cps)
  | none => r.set_status .notFound

/-- The bytes `fs::write` receives in the POST branch of `handle_files`
(lib.rs line 109-110): `request.body.to_string()` goes through `Body`'s
lossy `Display`, and the written file holds that string's UTF-8 bytes. -/
def postWrittenBytes (request : Request) : List Nat :=
  utf8Encode (Body.to_string_cps request.body)

/-- The POST branch of `handle_files` (lib.rs lines 108-121).  The
filesystem write is the external collaborator, abstracted by `writeOk`;
the pair returned is the response (201 on success, 500 on failure) and
the bytes handed to `fs::write`. -/
def handleFilesPost (request : Request) (writeOk : Bool) (r : Response) :
    Response × List Nat :=
  (if writeOk then r.set_status .created else r.set_status .internalServerError,
    postWrittenBytes request)

/-! ### Specification-side definitions

`specLastHeaderValue` restates, in the words of the specification, which
value a header name should map to after parsing: the value of the last
well-formed header line (before the terminating empty line) whose
lowercased name matches. -/

/-- The value of the last pair whose lowercased name is `k`. -/
def lastMatch (k : String) : List (String × String) → Option String
  | [] => none
  | p :: rest =>
    match lastMatch k rest with
    | some v => some v
    | none => if toLowerStr p.1 = k then some p.2 else none

/-- Modelled from the spec: the value of the last header line before the
first empty line that splits on `": "` into a name whose lowercase folding
is `k`, and that value. -/
def specLastHeaderValue (k : String) (lines : List String) : Option String :=
  lastMatch k ((lines.takeWhile (fun l => l ≠ "")).filterMap
    (fun l => splitOnceStr ": " l))

/-! ### Helper lemmas -/

theorem lookup_insertEntry_self (l : List (String × String)) (k v : String) :
    lookupEntry k (insertEntry l k v) = some v := by
  induction l with
  | nil => simp [insertEntry, lookupEntry]
  | cons p rest ih =>
    by_cases hk : p.1 = k
    · simp [insertEntry, hk, lookupEntry]
    · simp [insertEntry, hk, lookupEntry, ih]

theorem lookup_insertEntry_ne (l : List (String × String)) {k k' : String}
    (v : String) (h : k' ≠ k) :
    lookupEntry k' (insertEntry l k v) = lookupEntry k' l := by
  induction l with
  | nil => simp [insertEntry, lookupEntry, Ne.symm h]
  | cons p rest ih =>
    by_cases hk : p.1 = k
    · simp [insertEntry, hk, lookupEntry, Ne.symm h]
    · simp [insertEntry, hk, lookupEntry, ih]

theorem mem_keys_insertEntry {l : List (String × String)} {k v a : String}
    (h : a ∈ (insertEntry l k v).map Prod.fst) :
    a ∈ l.map Prod.fst ∨ a = k := by
  induction l with
  | nil => simpa [insertEntry] using h
  | cons p rest ih =>
    by_cases hk : p.1 = k
    · simp only [insertEntry, hk, if_pos, List.map_cons, List.mem_cons] at h
      rcases h with h | h
      · right; exact h
      · exact Or.inl (List.mem_cons_of_mem _ h)
    · simp only [insertEntry, hk, if_neg, not_false_iff, List.map_cons,
        List.mem_cons] at h
      rcases h with h | h
      · exact Or.inl (h ▸ List.mem_cons_self _ _)
      · rcases ih h with h' | h'
        · exact Or.inl (List.mem_cons_of_mem _ h')
        · right; exact h'

theorem nodup_keys_insertEntry {l : List (String × String)} {k v : String}
    (h : (l.map Prod.fst).Nodup) :
    ((insertEntry l k v).map Prod.fst).Nodup := by
  induction l with
  | nil => simp [insertEntry]
  | cons p rest ih =>
    simp only [List.map_cons, List.nodup_cons] at h
    by_cases hk : p.1 = k
    · simp only [insertEntry, hk, if_pos, List.map_cons, List.nodup_cons]
      exact ⟨hk ▸ h.1, h.2⟩
    · simp only [insertEntry, hk, if_neg, not_false_iff, List.map_cons,
        List.nodup_cons]
      refine ⟨fun hmem => ?_, ih h.2⟩
      rcases mem_keys_insertEntry hmem with h' | h'
      · exact h.1 h'
      · exact hk h'

theorem fromAux_lookup (lines : List String) :
    ∀ acc res, headersFromAux acc lines = .ok res → ∀ k : String,
      lookupEntry k res =
        match lastMatch k ((lines.takeWhile (fun l => l ≠ "")).filterMap
            (fun l => splitOnceStr ": " l)) with
        | some v => some v
        | none => lookupEntry k acc := by
  induction lines with
  | nil =>
    intro acc res h k
    simp only [headersFromAux, Except.ok.injEq] at h
    subst h
    simp [lastMatch]
  | cons line rest ih =>
    intro acc res h k
    by_cases hline : line = ""
    · simp only [headersFromAux, hline, if_pos] at h
      cases h
      simp [hline, List.takeWhile, lastMatch]
    · simp only [headersFromAux, hline, if_neg, not_false_iff] at h
      rcases hsplit : splitOnceStr ": " line with _ | ⟨a, b⟩
      · rw [hsplit] at h
        cases h
      · rw [hsplit] at h
        have := ih _ _ h k
        rw [this]
        have htake : (line :: rest).takeWhile (fun l => l ≠ "") =
            line :: rest.takeWhile (fun l => l ≠ "") := by
          simp [List.takeWhile, hline]
        rw [htake]
        simp only [List.filterMap_cons, hsplit, lastMatch]
        rcases lastMatch k ((rest.takeWhile (fun l => l ≠ "")).filterMap
            (fun l => splitOnceStr ": " l)) with _ | v
        · by_cases hk : toLowerStr a = k
          · simp [hk, lookup_insertEntry_self]
          · simp [hk, lookup_insertEntry_ne _ _ (fun e => hk e.symm)]
        · simp

theorem fromAux_nodup (lines : List String) :
    ∀ acc res, headersFromAux acc lines = .ok res →
      (acc.map Prod.fst).Nodup → (res.map Prod.fst).Nodup := by
  induction lines with
  | nil =>
    intro acc res h hnd
    simp only [headersFromAux, Except.ok.injEq] at h
    exact h ▸ hnd
  | cons line rest ih =>
    intro acc res h hnd
    by_cases hline : line = ""
    · simp only [headersFromAux, hline, if_pos] at h
      cases h
      exact hnd
    · simp only [headersFromAux, hline, if_neg, not_false_iff] at h
      rcases hsplit : splitOnceStr ": " line with _ | ⟨a, b⟩
      · rw [hsplit] at h
        cases h
      · rw [hsplit] at h
        exact ih _ _ h (nodup_keys_insertEntry hnd)

theorem fromAux_err (line : String) (post : List String)
    (hline : line ≠ "") (hsplit : splitOnceStr ": " line = none) :
    ∀ (pre : List String) (acc : List (String × String)),
      (∀ l ∈ pre, l ≠ "" ∧ (splitOnceStr ": " l).isSome) →
      headersFromAux acc (pre ++ line :: post) =
        .error ("invalid header line: " ++ line) := by
  intro pre
  induction pre with
  | nil =>
    intro acc _
    simp [headersFromAux, hline, hsplit]
  | cons l pre' ih =>
    intro acc hpre
    have hl := hpre l (List.mem_cons_self _ _)
    rcases hsome : splitOnceStr ": " l with _ | ⟨a, b⟩
    · rw [hsome] at hl
      simp at hl
    · simp only [List.cons_append, headersFromAux, hl.1, if_neg,
        not_false_iff, hsome]
      exact ih _ (fun x hx => hpre x (List.mem_cons_of_mem _ hx))

theorem utf8EncodeCp_two {b b1 : Nat} (hb : 0xC2 ≤ b) (hb' : b < 0xE0)
    (h1 : 0x80 ≤ b1) (h1' : b1 ≤ 0xBF) :
    utf8EncodeCp ((b - 0xC0) * 0x40 + (b1 - 0x80)) = [b, b1] := by
  unfold utf8EncodeCp
  rw [if_neg (by omega), if_pos (by omega)]
  simp only [List.cons.injEq, and_true]
  constructor <;> omega

theorem utf8EncodeCp_three {b b1 b2 : Nat} (hb : 0xE0 ≤ b) (hb' : b < 0xF0)
    (h1 : 0x80 ≤ b1) (h1' : b1 ≤ 0xBF) (h2 : 0x80 ≤ b2) (h2' : b2 ≤ 0xBF)
    (hlow : 0x800 ≤ ((b - 0xE0) * 0x40 + (b1 - 0x80)) * 0x40 + (b2 - 0x80)) :
    utf8EncodeCp (((b - 0xE0) * 0x40 + (b1 - 0x80)) * 0x40 + (b2 - 0x80)) =
      [b, b1, b2] := by
  unfold utf8EncodeCp
  rw [if_neg (by omega), if_neg (by omega), if_pos (by omega)]
  simp only [List.cons.injEq, and_true]
  refine ⟨by omega, by omega, by omega⟩

theorem utf8EncodeCp_four {b b1 b2 b3 : Nat} (hb : 0xF0 ≤ b) (hb' : b < 0xF5)
    (h1 : 0x80 ≤ b1) (h1' : b1 ≤ 0xBF) (h2 : 0x80 ≤ b2) (h2' : b2 ≤ 0xBF)
    (h3 : 0x80 ≤ b3) (h3' : b3 ≤ 0xBF)
    (hlow : 0x10000 ≤ (((b - 0xF0) * 0x40 + (b1 - 0x80)) * 0x40 + (b2 - 0x80))
      * 0x40 + (b3 - 0x80)) :
    utf8EncodeCp ((((b - 0xF0) * 0x40 + (b1 - 0x80)) * 0x40 + (b2 - 0x80))
      * 0x40 + (b3 - 0x80)) = [b, b1, b2, b3] := by
  unfold utf8EncodeCp
  rw [if_neg (by omega), if_neg (by omega), if_neg (by omega)]
  simp only [List.cons.injEq, and_true]
  refine ⟨by omega, by omega, by omega, by omega⟩

theorem isCont_bounds {b : Nat} (h : isCont b = true) :
    0x80 ≤ b ∧ b ≤ 0xBF := by
  simpa [isCont] using h

theorem okSecond3_bounds {b b1 : Nat} (h : okSecond3 b b1 = true) :
    0x80 ≤ b1 ∧ b1 ≤ 0xBF ∧ (b = 0xE0 → 0xA0 ≤ b1) := by
  unfold okSecond3 at h
  split_ifs at h with h1 h2 <;>
    simp only [isCont, decide_eq_true_eq] at h <;> omega

theorem okSecond4_bounds {b b1 : Nat} (h : okSecond4 b b1 = true) :
    0x80 ≤ b1 ∧ b1 ≤ 0xBF ∧ (b = 0xF0 → 0x90 ≤ b1) := by
  unfold okSecond4 at h
  split_ifs at h with h1 h2 <;>
    simp only [isCont, decide_eq_true_eq] at h <;> omega

set_option maxRecDepth 8000 in
/-- On a successful decoding step, the decoded code point re-encodes to
exactly the consumed bytes, and at least one byte was consumed. -/
theorem decodeStep_ok :
    ∀ {bs : List Nat} {cp k : Nat}, decodeStep bs = .ok cp k →
      utf8EncodeCp cp = bs.take k ∧ 1 ≤ k := by
  intro bs cp k h
  match bs with
  | [] => simp [decodeStep] at h
  | [b] =>
    simp only [decodeStep] at h
    split_ifs at h
    cases h
    refine ⟨?_, Nat.le_refl 1⟩
    simp only [List.take_succ_cons, List.take_zero]
    unfold utf8EncodeCp
    rw [if_pos (by assumption)]
  | [b, b1] =>
    simp only [decodeStep] at h
    split_ifs at h <;> cases h
    · refine ⟨?_, Nat.le_refl 1⟩
      simp only [List.take_succ_cons, List.take_zero]
      unfold utf8EncodeCp
      rw [if_pos (by assumption)]
    · have hc := isCont_bounds ‹isCont b1 = true›
      have h2 : utf8EncodeCp ((b - 0xC0) * 0x40 + (b1 - 0x80)) = [b, b1] :=
        utf8EncodeCp_two (by omega) (by omega) hc.1 hc.2
      exact ⟨by simpa using h2, by omega⟩
  | [b, b1, b2] =>
    simp only [decodeStep] at h
    split_ifs at h <;> cases h
    · refine ⟨?_, Nat.le_refl 1⟩
      simp only [List.take_succ_cons, List.take_zero]
      unfold utf8EncodeCp
      rw [if_pos (by assumption)]
    · have hc := isCont_bounds ‹isCont b1 = true›
      have h2 : utf8EncodeCp ((b - 0xC0) * 0x40 + (b1 - 0x80)) = [b, b1] :=
        utf8EncodeCp_two (by omega) (by omega) hc.1 hc.2
      exact ⟨by simpa using h2, by omega⟩
    · have hs := okSecond3_bounds ‹okSecond3 b b1 = true›
      have hc := isCont_bounds ‹isCont b2 = true›
      have h3 : utf8EncodeCp (((b - 0xE0) * 0x40 + (b1 - 0x80)) * 0x40
          + (b2 - 0x80)) = [b, b1, b2] :=
        utf8EncodeCp_three (by omega) (by omega) hs.1 hs.2.1 hc.1 hc.2
          (by omega)
      exact ⟨by simpa using h3, by omega⟩
  | b :: b1 :: b2 :: b3 :: tail =>
    simp only [decodeStep] at h
    split_ifs at h <;> cases h
    · refine ⟨?_, Nat.le_refl 1⟩
      simp only [List.take_succ_cons, List.take_zero]
      unfold utf8EncodeCp
      rw [if_pos (by assumption)]
    · have hc := isCont_bounds ‹isCont b1 = true›
      have h2 : utf8EncodeCp ((b - 0xC0) * 0x40 + (b1 - 0x80)) = [b, b1] :=
        utf8EncodeCp_two (by omega) (by omega) hc.1 hc.2
      exact ⟨by simpa using h2, by omega⟩
    · have hs := okSecond3_bounds ‹okSecond3 b b1 = true›
      have hc := isCont_bounds ‹isCont b2 = true›
      have h3 : utf8EncodeCp (((b - 0xE0) * 0x40 + (b1 - 0x80)) * 0x40
          + (b2 - 0x80)) = [b, b1, b2] :=
        utf8EncodeCp_three (by omega) (by omega) hs.1 hs.2.1 hc.1 hc.2
          (by omega)
      exact ⟨by simpa using h3, by omega⟩
    · have hs := okSecond4_bounds ‹okSecond4 b b1 = true›
      have hc2 := isCont_bounds ‹isCont b2 = true›
      have hc3 := isCont_bounds ‹isCont b3 = true›
      have h4 : utf8EncodeCp ((((b - 0xF0) * 0x40 + (b1 - 0x80)) * 0x40
          + (b2 - 0x80)) * 0x40 + (b3 - 0x80)) = [b, b1, b2, b3] :=
        utf8EncodeCp_four (by omega) (by omega) hs.1 hs.2.1 hc2.1 hc2.2
          hc3.1 hc3.2 (by omega)
      exact ⟨by simpa using h4, by omega⟩

theorem utf8Encode_cons (c : Nat) (l : List Nat) :
    utf8Encode (c :: l) = utf8EncodeCp c ++ utf8Encode l := by
  simp [utf8Encode]

theorem strictAux_encode :
    ∀ (fuel : Nat) (bs cps : List Nat), utf8StrictAux fuel bs = some cps →
      utf8Encode cps = bs := by
  intro fuel
  induction fuel with
  | zero =>
    intro bs cps h
    match bs with
    | [] =>
      simp only [utf8StrictAux, Option.some.injEq] at h
      subst h
      rfl
    | b :: tail => simp [utf8StrictAux] at h
  | succ n ih =>
    intro bs cps h
    match bs with
    | [] =>
      simp only [utf8StrictAux, Option.some.injEq] at h
      subst h
      rfl
    | b :: tail =>
      simp only [utf8StrictAux] at h
      cases hdec : decodeStep (b :: tail) with
      | ok cp k =>
        rw [hdec] at h
        simp only [Option.map_eq_some'] at h
        obtain ⟨cps', h1, h2⟩ := h
        subst h2
        have hd := decodeStep_ok hdec
        rw [utf8Encode_cons, ih _ _ h1, hd.1, List.take_append_drop]
      | bad k =>
        rw [hdec] at h
        cases h

theorem strictAux_lossyAux :
    ∀ (fuel : Nat) (bs cps : List Nat), utf8StrictAux fuel bs = some cps →
      utf8LossyAux fuel bs = cps := by
  intro fuel
  induction fuel with
  | zero =>
    intro bs cps h
    match bs with
    | [] =>
      simp only [utf8StrictAux, Option.some.injEq] at h
      subst h
      rfl
    | b :: tail => simp [utf8StrictAux] at h
  | succ n ih =>
    intro bs cps h
    match bs with
    | [] =>
      simp only [utf8StrictAux, Option.some.injEq] at h
      subst h
      rfl
    | b :: tail =>
      simp only [utf8StrictAux] at h
      simp only [utf8LossyAux]
      cases hdec : decodeStep (b :: tail) with
      | ok cp k =>
        rw [hdec] at h
        simp only [Option.map_eq_some'] at h
        obtain ⟨cps', h1, h2⟩ := h
        subst h2
        simp [ih _ _ h1]
      | bad k =>
        rw [hdec] at h
        cases h

/-- Bytes that pass the strict UTF-8 check re-encode to themselves. -/
theorem utf8Strict_encode {bs cps : List Nat} (h : utf8Strict bs = some cps) :
    utf8Encode cps = bs :=
  strictAux_encode _ _ _ h

/-- On valid UTF-8 input the lossy decoder agrees with the strict one. -/
theorem utf8Strict_lossy {bs cps : List Nat} (h : utf8Strict bs = some cps) :
    utf8Lossy bs = cps :=
  strictAux_lossyAux _ _ _ h

theorem strBytes_append (s t : String) :
    strBytes (s ++ t) = strBytes s ++ strBytes t := by
  simp [strBytes, utf8Encode, String.data_append]

theorem drop_head_crlf (a b : List Nat) :
    List.drop (a.length + 2) (a ++ [13, 10] ++ b) = b := by
  have hassoc : a ++ [13, 10] ++ b = (a ++ [13, 10]) ++ b := by
    rw [List.append_assoc]
  have hlen : a.length + 2 = (a ++ [13, 10]).length := by simp
  rw [hassoc, hlen, List.drop_left]

theorem headerLines_flatten_ends (p : String × String) :
    ∀ rest : List (String × String), ∃ q : List Nat,
      (((p :: rest).map
        (fun p => strBytes (p.1 ++ ": " ++ p.2 ++ "\r\n"))).flatten) =
        q ++ [13, 10] := by
  intro rest
  induction rest generalizing p with
  | nil =>
    refine ⟨strBytes (p.1 ++ ": " ++ p.2), ?_⟩
    simp only [List.map_cons, List.map_nil, List.flatten_cons,
      List.flatten_nil, List.append_nil]
    rw [strBytes_append]
    rfl
  | cons p2 rest ih =>
    obtain ⟨q, hq⟩ := ih p2
    refine ⟨strBytes (p.1 ++ ": " ++ p.2 ++ "\r\n") ++ q, ?_⟩
    simp only [List.map_cons, List.flatten_cons] at hq ⊢
    rw [hq, List.append_assoc]

/-! ### The claims -/

/-- C1: the specification claims that when `content-length` parses to
`n > 0` the request body is byte-for-byte the `n` raw bytes read off the
stream, with no line splitting or newline normalization.  The code
(lib.rs lines 40-52) does read exactly `n` bytes, but then decodes them
with `from_utf8_lossy`, splits them with `lines()` and re-joins with
`"\r\n"`: a body `"a\n"` (read under `content-length: 2`) loses its
trailing newline and becomes `"a"`, and a body `"a\nb"` (read under
`content-length: 3`) has its bare LF rewritten to CRLF, becoming the four
bytes `"a\r\nb"`. -/
theorem c1_body_line_normalized :
    readBody ⟨[("content-length", "2")]⟩ [97, 10] = Except.ok [97] ∧
    readBody ⟨[("content-length", "3")]⟩ [97, 10, 98] =
      Except.ok [97, 13, 10, 98] ∧
    ([97] : List Nat) ≠ [97, 10] := by
  refine ⟨by rfl, by rfl, by decide⟩

/-- C2 (counterexample): a header line without the separator `": "` does
not merely get skipped — `Headers::from` (structs.rs lines 75-78) returns
an error, so the well-formed lines around it are lost too. -/
theorem c2_malformed_header_fatal :
    Headers.from_lines ["host: a", "badline", "x: y"] =
      Except.error "invalid header line: badline" := by
  rfl

/-- C2 (amended): a header line that does not contain `": "` aborts the
whole header parse with an error (after printing a diagnostic); no header
map is produced, regardless of the well-formed lines before and after. -/
theorem c2_amended_malformed_header_aborts :
    ∀ (pre : List String) (line : String) (post : List String),
      line ≠ "" → splitOnceStr ": " line = none →
      (∀ l ∈ pre, l ≠ "" ∧ (splitOnceStr ": " l).isSome) →
      Headers.from_lines (pre ++ line :: post) =
        Except.error ("invalid header line: " ++ line) := by
  intro pre line post hline hsplit hpre
  unfold Headers.from_lines
  rw [fromAux_err line post hline hsplit pre [] hpre]
  rfl

theorem c2_amended_witness :
    Headers.from_lines (["a: b"] ++ "oops" :: ["c: d"]) =
      Except.error ("invalid header line: " ++ "oops") :=
  c2_amended_malformed_header_aborts ["a: b"] "oops" ["c: d"] (by decide)
    (by rfl) (by decide)

/-- C3 (counterexample): a request line with fewer than three tokens does
not produce a returned parse error — the indexing `parts[1]` (lib.rs line
26) goes out of bounds, which in Rust is a panic, not an error value. -/
theorem c3_short_request_line_panics :
    (rustSplitWs "GET /abc\r\n").length < 3 ∧
    parseRequestLine "GET /abc\r\n" = ReqLineOut.indexOob ∧
    ∀ msg, parseRequestLine "GET /abc\r\n" ≠ ReqLineOut.err msg := by
  refine ⟨by decide, by rfl, ?_⟩
  intro msg h
  exact ReqLineOut.noConfusion h

/-- C3 (amended): a first line with fewer than three whitespace tokens
never yields a parsed request.  If the token list is empty, or its first
token is `"GET"` or `"POST"`, the code hits an out-of-bounds index (a
panic that aborts the connection task with no response written); only a
present-but-unrecognized method token produces a returned error. -/
theorem c3_amended_short_request_line :
    ∀ s : String, (rustSplitWs s).length < 3 →
      (∀ m p v, parseRequestLine s ≠ ReqLineOut.ok m p v) ∧
      ((rustSplitWs s).get? 0 = none → parseRequestLine s = .indexOob) ∧
      (∀ t, (rustSplitWs s).get? 0 = some t → (t = "GET" ∨ t = "POST") →
        parseRequestLine s = .indexOob) ∧
      (∀ t, (rustSplitWs s).get? 0 = some t → t ≠ "GET" → t ≠ "POST" →
        parseRequestLine s = .err ("invalid method: " ++ t)) := by
  intro s hlen
  rcases hps : rustSplitWs s with _ | ⟨t, rest1⟩
  · have hp : parseRequestLine s = .indexOob := by
      unfold parseRequestLine
      rw [hps]
      rfl
    refine ⟨?_, fun _ => hp, ?_, ?_⟩
    · intro m p v h
      rw [hp] at h
      cases h
    · intro t' ht' _
      simp at ht'
    · intro t' ht' _ _
      simp at ht'
  · rcases rest1 with _ | ⟨p1, rest2⟩
    · have hpr : parseRequestLine s = (match Method.from_str t with
          | .error e => ReqLineOut.err e
          | .ok _ => ReqLineOut.indexOob) := by
        unfold parseRequestLine
        rw [hps]
        simp only [List.get?_cons_zero, List.get?_cons_succ, List.get?_nil]
      refine ⟨?_, ?_, ?_, ?_⟩
      · intro m p v h
        rw [hpr] at h
        revert h
        cases Method.from_str t <;> intro h <;> cases h
      · intro hnone
        simp at hnone
      · intro t' ht' hgp
        have heq : t = t' := by simpa using ht'
        subst heq
        rw [hpr]
        rcases hgp with hG | hP
        · rw [hG]
          rfl
        · rw [hP]
          rfl
      · intro t' ht' hG hP
        have heq : t = t' := by simpa using ht'
        subst heq
        rw [hpr]
        have hf : Method.from_str t = .error ("invalid method: " ++ t) := by
          unfold Method.from_str
          rw [if_neg hG, if_neg hP]
        rw [hf]
    · rcases rest2 with _ | ⟨p2, rest3⟩
      · have hpr : parseRequestLine s = (match Method.from_str t with
            | .error e => ReqLineOut.err e
            | .ok _ => ReqLineOut.indexOob) := by
          unfold parseRequestLine
          rw [hps]
          simp only [List.get?_cons_zero, List.get?_cons_succ, List.get?_nil]
        refine ⟨?_, ?_, ?_, ?_⟩
        · intro m p v h
          rw [hpr] at h
          revert h
          cases Method.from_str t <;> intro h <;> cases h
        · intro hnone
          simp at hnone
        · intro t' ht' hgp
          have heq : t = t' := by simpa using ht'
          subst heq
          rw [hpr]
          rcases hgp with hG | hP
          · rw [hG]
            rfl
          · rw [hP]
            rfl
        · intro t' ht' hG hP
          have heq : t = t' := by simpa using ht'
          subst heq
          rw [hpr]
          have hf : Method.from_str t = .error ("invalid method: " ++ t) := by
            unfold Method.from_str
            rw [if_neg hG, if_neg hP]
          rw [hf]
      · rw [hps] at hlen
        simp only [List.length_cons] at hlen
        omega

theorem c3_amended_witness :
    parseRequestLine "POST /x\r\n" = ReqLineOut.indexOob :=
  (c3_amended_short_request_line "POST /x\r\n" (by decide)).2.2.1 "POST"
    (by rfl) (Or.inr rfl)

/-- C4: serializing a response yields the status line, one line per
header, a blank line, and then exactly the body bytes: the output is
`head ++ [13, 10] ++ body` where `head` itself ends with CRLF (so the
body follows the blank-line CRLF CRLF separator), and dropping the head
and the blank line recovers the body byte-for-byte — no re-splitting and
no appended terminator, for every status, header list and body. -/
theorem c4_serialized_body_verbatim :
    ∀ r : Response, ∃ head : List Nat,
      Response.to_bytes r = head ++ [13, 10] ++ r.body ∧
      (∃ pre, head = pre ++ [13, 10]) ∧
      List.drop (head.length + 2) (Response.to_bytes r) = r.body := by
  intro r
  have hcrlf : strBytes "\r\n" = [13, 10] := by rfl
  have h1 : Response.to_bytes r = (strBytes (r.version ++ " ")
      ++ strBytes (r.status.toWire ++ "\r\n")
      ++ (r.headers.entries.map
        (fun p => strBytes (p.1 ++ ": " ++ p.2 ++ "\r\n"))).flatten)
      ++ [13, 10] ++ r.body := by
    simp only [Response.to_bytes, hcrlf, List.append_assoc]
  refine ⟨strBytes (r.version ++ " ") ++ strBytes (r.status.toWire ++ "\r\n")
    ++ (r.headers.entries.map
      (fun p => strBytes (p.1 ++ ": " ++ p.2 ++ "\r\n"))).flatten,
    h1, ?_, ?_⟩
  · cases hent : r.headers.entries with
    | nil =>
      refine ⟨strBytes (r.version ++ " ") ++ strBytes r.status.toWire, ?_⟩
      have hst : strBytes (r.status.toWire ++ "\r\n") =
          strBytes r.status.toWire ++ [13, 10] := by
        rw [strBytes_append, hcrlf]
      rw [hst]
      simp [List.append_assoc]
    | cons p rest =>
      obtain ⟨q, hq⟩ := headerLines_flatten_ends p rest
      refine ⟨strBytes (r.version ++ " ")
        ++ strBytes (r.status.toWire ++ "\r\n") ++ q, ?_⟩
      rw [hq]
      simp [List.append_assoc]
  · rw [h1]
    exact drop_head_crlf _ _

/-- C5: when the request's `accept-encoding` value contains `"gzip"`,
`apply_compression` replaces the body with the compressed bytes produced
by the (externally supplied) gzip encoder applied to the previous body,
sets `content-encoding: gzip`, and sets `content-length` to the byte
length of the compressed body — not the pre-compression length. -/
theorem c5_compression_applied :
    ∀ (compress : List Nat → List Nat) (request : Request) (r : Response),
      request.is_gzip_encoding = true →
      (r.apply_compression compress request).body = compress r.body ∧
      (r.apply_compression compress request).headers.get "content-encoding" =
        some "gzip" ∧
      (r.apply_compression compress request).headers.get "content-length" =
        some (toString (compress r.body).length) := by
  intro compress request r h
  have happ : r.apply_compression compress request =
      { r with
        headers := (r.headers.set_content_encoding).set_content_length
          (compress r.body).length
        body := compress r.body } := by
    unfold Response.apply_compression
    rw [h]
    rfl
  rw [happ]
  refine ⟨rfl, ?_, ?_⟩
  · simp only [Headers.get, Headers.set_content_length,
      Headers.set_content_encoding, Headers.set]
    rw [lookup_insertEntry_ne _ _ (by decide)]
    exact lookup_insertEntry_self _ _ _
  · simp only [Headers.get, Headers.set_content_length,
      Headers.set_content_encoding, Headers.set]
    exact lookup_insertEntry_self _ _ _

theorem c5_compression_witness :
    (Response.apply_compression (fun _ => [0, 1])
      ⟨Method.get, "/", "HTTP/1.1", ⟨[("accept-encoding", "gzip")]⟩, []⟩
      Response.new).body = [0, 1] ∧
    (Response.apply_compression (fun _ => [0, 1])
      ⟨Method.get, "/", "HTTP/1.1", ⟨[("accept-encoding", "gzip")]⟩, []⟩
      Response.new).headers.get "content-encoding" = some "gzip" ∧
    (Response.apply_compression (fun _ => [0, 1])
      ⟨Method.get, "/", "HTTP/1.1", ⟨[("accept-encoding", "gzip")]⟩, []⟩
      Response.new).headers.get "content-length" = some "2" :=
  c5_compression_applied (fun _ => [0, 1])
    ⟨Method.get, "/", "HTTP/1.1", ⟨[("accept-encoding", "gzip")]⟩, []⟩
    Response.new (by rfl)

/-- C6: when the request does not accept gzip, `apply_compression` returns
the response completely unchanged — same status, body and headers, and in
particular no `content-encoding` header is added. -/
theorem c6_no_gzip_no_change :
    ∀ (compress : List Nat → List Nat) (request : Request) (r : Response),
      request.is_gzip_encoding = false →
      r.apply_compression compress request = r := by
  intro compress request r h
  unfold Response.apply_compression
  simp [h]

theorem c6_no_gzip_witness :
    Response.apply_compression (fun _ => [0, 1])
      ⟨Method.get, "/", "HTTP/1.1", ⟨[]⟩, []⟩ Response.new = Response.new :=
  c6_no_gzip_no_change (fun _ => [0, 1])
    ⟨Method.get, "/", "HTTP/1.1", ⟨[]⟩, []⟩ Response.new (by rfl)

/-- C7 (counterexample): `Headers::set` stores the key exactly as given
and `get` is an exact lookup, so a header set programmatically with any
capitalization is NOT retrievable by its lowercase name. -/
theorem c7_set_does_not_fold_case :
    (Headers.set ⟨[]⟩ "X-Test" "1").get "x-test" = none ∧
    (Headers.set ⟨[]⟩ "X-Test" "1").get "X-Test" = some "1" := by
  decide

/-- C7 (amended): case folding happens only at parse time — `Headers::from`
lowercases each wire header name before insertion, so wire-parsed headers
are retrievable by their lowercase name; `set` stores the given name
verbatim and `get` is an exact, case-sensitive lookup. -/
theorem c7_amended_case_folding_parse_only :
    (∀ (m : Headers) (k v : String), (m.set k v).get k = some v) ∧
    (∀ (name value : String) (m : Headers),
      splitOnceStr ": " (name ++ ": " ++ value) = some (name, value) →
      Headers.from_lines [name ++ ": " ++ value] = .ok m →
      m.get (toLowerStr name) = some value) := by
  constructor
  · intro m k v
    exact lookup_insertEntry_self _ _ _
  · intro name value m hsplit hok
    have hne : name ++ ": " ++ value ≠ "" := by
      intro he
      rw [he] at hsplit
      have hnone : (none : Option (String × String)) = some (name, value) := by
        rw [← hsplit]
        rfl
      cases hnone
    unfold Headers.from_lines at hok
    simp only [headersFromAux] at hok
    rw [if_neg hne, hsplit] at hok
    simp only [headersFromAux, Except.map] at hok
    cases hok
    exact lookup_insertEntry_self _ _ _

theorem c7_amended_witness :
    (Headers.set ⟨[]⟩ "k" "v").get "k" = some "v" ∧
    (⟨[("user-agent", "x")]⟩ : Headers).get "user-agent" = some "x" :=
  ⟨c7_amended_case_folding_parse_only.1 ⟨[]⟩ "k" "v",
    c7_amended_case_folding_parse_only.2 "User-Agent" "x"
      ⟨[("user-agent", "x")]⟩ (by rfl) (by rfl)⟩

/-- C8 (counterexample): the POST branch of `handle_files` writes
`request.body.to_string()`, which lossily decodes the body; a body
consisting of the single non-UTF-8 byte `0xFF` is written as the three
bytes of U+FFFD, not verbatim. -/
theorem c8_post_not_verbatim :
    postWrittenBytes ⟨Method.post, "/files/f", "HTTP/1.1", ⟨[]⟩, [255]⟩ =
      [239, 191, 189] ∧
    postWrittenBytes ⟨Method.post, "/files/f", "HTTP/1.1", ⟨[]⟩, [255]⟩ ≠
      [255] := by
  decide

/-- C8 (amended): the POST branch writes the lossy UTF-8 re-encoding of
the body — byte-for-byte identical to the body whenever the body is valid
UTF-8 (which holds for every body the parser produces) — and the response
status is 201 Created when the write succeeds and 500 Internal Server
Error when it fails. -/
theorem c8_amended_post_write :
    ∀ (request : Request) (r : Response),
      (utf8Strict request.body).isSome = true →
      postWrittenBytes request = request.body ∧
      (handleFilesPost request true r).1.status = Status.created ∧
      (handleFilesPost request false r).1.status =
        Status.internalServerError := by
  intro request r h
  refine ⟨?_, rfl, rfl⟩
  rcases hcps : utf8Strict request.body with _ | cps
  · rw [hcps] at h
    cases h
  · unfold postWrittenBytes Body.to_string_cps
    rw [utf8Strict_lossy hcps, utf8Strict_encode hcps]

theorem c8_amended_witness :
    postWrittenBytes ⟨Method.post, "/files/f", "HTTP/1.1", ⟨[]⟩,
      [104, 105]⟩ = [104, 105] ∧
    (handleFilesPost ⟨Method.post, "/files/f", "HTTP/1.1", ⟨[]⟩,
      [104, 105]⟩ true Response.new).1.status = Status.created ∧
    (handleFilesPost ⟨Method.post, "/files/f", "HTTP/1.1", ⟨[]⟩,
      [104, 105]⟩ false Response.new).1.status =
      Status.internalServerError :=
  c8_amended_post_write ⟨Method.post, "/files/f", "HTTP/1.1", ⟨[]⟩,
    [104, 105]⟩ Response.new (by rfl)

/-- C9: when header parsing succeeds, the resulting map holds, for every
name, the value of the LAST well-formed header line whose lowercased name
matches (later occurrences overwrite earlier ones), and the map's keys
are free of duplicates — exactly one entry per name. -/
theorem c9_duplicate_headers_last_wins :
    ∀ (lines : List String) (m : Headers) (k : String),
      Headers.from_lines lines = .ok m →
      m.get k = specLastHeaderValue k lines ∧
      (m.entries.map Prod.fst).Nodup := by
  intro lines m k h
  have hm : headersFromAux [] lines = .ok m.entries := by
    unfold Headers.from_lines at h
    cases hfa : headersFromAux [] lines with
    | error e =>
      rw [hfa] at h
      simp only [Except.map] at h
      cases h
    | ok l =>
      rw [hfa] at h
      simp only [Except.map] at h
      cases h
      rfl
  constructor
  · have hl := fromAux_lookup lines [] m.entries hm k
    unfold Headers.get
    rw [hl]
    unfold specLastHeaderValue
    cases lastMatch k ((lines.takeWhile (fun l => l ≠ "")).filterMap
      (fun l => splitOnceStr ": " l)) <;> rfl
  · exact fromAux_nodup lines [] m.entries hm (by simp)

theorem c9_last_wins_witness :
    (⟨[("a", "2")]⟩ : Headers).get "a" =
      specLastHeaderValue "a" ["A: 1", "a: 2"] ∧
    ((⟨[("a", "2")]⟩ : Headers).entries.map Prod.fst).Nodup :=
  c9_duplicate_headers_last_wins ["A: 1", "a: 2"] ⟨[("a", "2")]⟩ "a" (by rfl)

/-- C10: a GET under `/files/` whose file exists but holds bytes that are
not valid UTF-8 is answered with status 404 — the `read_to_string` decode
fails and is handled like a missing file — and the response body is left
unchanged (the file's raw bytes are never sent). -/
theorem c10_non_utf8_file_404 :
    ∀ (bs : List Nat) (r : Response), utf8Strict bs = none →
      handleFilesGet (some bs) r = r.set_status .notFound ∧
      (handleFilesGet (some bs) r).status = Status.notFound ∧
      (handleFilesGet (some bs) r).body = r.body := by
  intro bs r h
  have hg : handleFilesGet (some bs) r = r.set_status .notFound := by
    unfold handleFilesGet
    rw [show (some bs).bind utf8Strict = utf8Strict bs from rfl, h]
  refine ⟨hg, ?_, ?_⟩ <;> rw [hg] <;> rfl

theorem c10_non_utf8_witness :
    handleFilesGet (some [128]) Response.new =
      Response.new.set_status .notFound ∧
    (handleFilesGet (some [128]) Response.new).status = Status.notFound ∧
    (handleFilesGet (some [128]) Response.new).body = Response.new.body :=
  c10_non_utf8_file_404 [128] Response.new (by rfl)

end HttpSrv
